import Mathlib

/-!
Verification of the multilateration tracker, a shallow embedding of
mlat/server/mlattrack.py.  Real-valued quantities (timestamps, distances,
variances) are modelled as rationals; receivers are identified by natural
numbers; external collaborators (decoder, clock normalization, solver,
aircraft registry) are oracle parameters.
-/

namespace Mlat

/-- One flattened observation: a receiver id, a normalized timestamp and the
receiver's clock variance, mirroring the (receiver, timestamp, variance)
tuples of flat_component in _cluster_timestamps. -/
structure Obs where
  rid : ℕ
  t : ℚ
  v : ℚ
deriving DecidableEq, Repr

/-- The strict per-candidate feasibility test of _cluster_timestamps: the
candidate o can join the cluster iff, for every member m already in the
cluster, o comes from a different receiver and the timestamp difference does
not exceed (distance * 1.05 + 1000 m) / Cair. -/
def canCluster (dist : ℕ → ℕ → ℚ) (Cair : ℚ) (o : Obs) (cluster : List Obs) : Bool :=
  cluster.all fun m =>
    m.rid != o.rid && decide (|m.t - o.t| ≤ (dist o.rid m.rid * (21/20) + 1000) / Cair)

/-- The distinctness test of _cluster_timestamps: o counts as a distinct
receiver iff no member of the cluster is closer than 1 km to it. -/
def isDistinct (dist : ℕ → ℕ → ℚ) (o : Obs) (cluster : List Obs) : Bool :=
  cluster.all fun m => decide ((1000 : ℚ) ≤ dist o.rid m.rid)

/-- The backward scan of _cluster_timestamps (the for-loop over
range(len(group)-1, -1, -1)).  The input list is the group with the seed
popped, in descending timestamp order; lastT is the seed's timestamp (the
code sets last_timestamp once, before the loop, and never reassigns it).
Returns (remaining group entries in descending order, cluster, distinct
count).  On break, all unscanned entries stay in the group. -/
def scanStep (dist : ℕ → ℕ → ℚ) (Cair : ℚ) (lastT : ℚ) :
    List Obs → List Obs → ℕ → List Obs × List Obs × ℕ
  | [], cluster, distinct => ([], cluster, distinct)
  | o :: rest, cluster, distinct =>
    if (2 : ℚ)/1000 < lastT - o.t then
      (o :: rest, cluster, distinct)
    else if canCluster dist Cair o cluster then
      scanStep dist Cair lastT rest (cluster ++ [o])
        (if isDistinct dist o cluster then distinct + 1 else distinct)
    else
      let s := scanStep dist Cair lastT rest cluster distinct
      (o :: s.1, s.2.1, s.2.2)

theorem scanStep_kept_length (dist : ℕ → ℕ → ℚ) (Cair lastT : ℚ) :
    ∀ (gs cluster : List Obs) (distinct : ℕ),
      (scanStep dist Cair lastT gs cluster distinct).1.length ≤ gs.length := by
  intro gs
  induction gs with
  | nil => intro cluster distinct; simp [scanStep]
  | cons o rest ih =>
    intro cluster distinct
    simp only [scanStep]
    split
    · simp
    · split
      · exact le_trans (ih _ _) (Nat.le_succ _)
      · simpa using ih cluster distinct

/-- One round of the while-loop of _cluster_timestamps over a group, fuel
indexed.  The group is kept in ascending timestamp order; each round pops the
last entry as a cluster seed, runs the backward scan and keeps the cluster if
its distinct count reaches min_receivers.  Each round removes at least the
seed from the group, so fuel = initial length never runs out (see
processGroupF_fuel_irrel). -/
def processGroupF (dist : ℕ → ℕ → ℚ) (Cair : ℚ) (minR : ℕ) :
    ℕ → List Obs → List (ℕ × List Obs)
  | 0, _ => []
  | fuel+1, g =>
    if 3 ≤ g.length then
      match g.reverse with
      | [] => []
      | seed :: restDesc =>
        let s := scanStep dist Cair seed.t restDesc [seed] 1
        let rest := processGroupF dist Cair minR fuel s.1.reverse
        if minR ≤ s.2.2 then (s.2.2, s.2.1.reverse) :: rest else rest
    else []

/-- The while-loop of _cluster_timestamps on one coarse group. -/
def processGroup (dist : ℕ → ℕ → ℚ) (Cair : ℚ) (minR : ℕ) (g : List Obs) :
    List (ℕ × List Obs) :=
  processGroupF dist Cair minR g.length g

theorem processGroupF_fuel_irrel (dist : ℕ → ℕ → ℚ) (Cair : ℚ) (minR : ℕ) :
    ∀ (f1 f2 : ℕ) (g : List Obs), g.length ≤ f1 → g.length ≤ f2 →
      processGroupF dist Cair minR f1 g = processGroupF dist Cair minR f2 g := by
  intro f1
  induction f1 with
  | zero =>
    intro f2 g h1 _
    have hg : g = [] := List.length_eq_zero.mp (Nat.le_zero.mp h1)
    subst hg
    cases f2 <;> simp [processGroupF]
  | succ f ih =>
    intro f2 g h1 h2
    cases f2 with
    | zero =>
      have hg : g = [] := List.length_eq_zero.mp (Nat.le_zero.mp h2)
      subst hg
      simp [processGroupF]
    | succ f' =>
      simp only [processGroupF]
      split
      · rename_i h3
        cases hrev : g.reverse with
        | nil => rfl
        | cons seed restDesc =>
          have hlen : restDesc.length + 1 = g.length := by
            have := congrArg List.length hrev
            simpa [Nat.add_comm] using this.symm
          have hkept := scanStep_kept_length dist Cair seed.t restDesc [seed] 1
          have hk1 : (scanStep dist Cair seed.t restDesc [seed] 1).1.reverse.length ≤ f := by
            simp only [List.length_reverse]
            omega
          have hk2 : (scanStep dist Cair seed.t restDesc [seed] 1).1.reverse.length ≤ f' := by
            simp only [List.length_reverse]
            omega
          dsimp only
          rw [ih f' _ hk1 hk2]
      · rfl

/-- The coarse 2 ms pre-partition of _cluster_timestamps: walking the sorted
flat component, a new group starts whenever the gap between consecutive
timestamps exceeds 2 ms. -/
def coarse : List Obs → List (List Obs)
  | [] => []
  | x :: xs =>
    match coarse xs with
    | [] => [[x]]
    | [] :: gs => [x] :: gs
    | (y :: g) :: gs =>
      if (2 : ℚ)/1000 < y.t - x.t then [x] :: (y :: g) :: gs
      else (x :: y :: g) :: gs

/-- Flattening of a normalized component (receiver, variance, timestamps)
into (receiver, timestamp, variance) observations. -/
def flattenComponent (component : List (ℕ × ℚ × List ℚ)) : List Obs :=
  component.flatMap fun rvt => rvt.2.2.map fun t => ⟨rvt.1, t, rvt.2.1⟩

/-- The _cluster_timestamps function: flatten, sort by timestamp, coarse
2 ms grouping, then the exact per-group clustering pass. -/
def clusterTimestamps (dist : ℕ → ℕ → ℚ) (Cair : ℚ) (minR : ℕ)
    (component : List (ℕ × ℚ × List ℚ)) : List (ℕ × List Obs) :=
  let flat := List.insertionSort (fun a b => a.t ≤ b.t) (flattenComponent component)
  (coarse flat).flatMap (processGroup dist Cair minR)

/-- A decoded Mode S message (the external decoder's output). -/
structure Decoded where
  address : ℕ
  altitude : Option ℚ
  squawk : Option ℕ
  callsign : Option String
deriving DecidableEq, Repr

/-- The mutable per-aircraft track state consumed and produced by _resolve.
The last_result_var, last_result_distinct and last_result_time fields are
only meaningful when lastResultPos is some (the code guards on
last_result_position is None). -/
structure Aircraft where
  altitude : Option ℚ
  lastAltTime : ℚ
  squawk : Option ℕ
  callsign : Option String
  lastResultPos : Option (ℚ × ℚ × ℚ)
  lastResultVar : ℚ
  lastResultDistinct : ℕ
  lastResultTime : ℚ
deriving DecidableEq, Repr

/-- The prior-result context recalled by _resolve (lines 123-133). -/
structure Prior where
  pos : Option (ℚ × ℚ × ℚ)
  var : ℚ
  distinct : ℕ
  elapsed : ℚ
deriving DecidableEq, Repr

/-- The altitude-derived context of _resolve (lines 135-147). -/
structure AltCtx where
  alt : Option ℚ
  altErr : Option ℚ
  minReceivers : ℕ
deriving DecidableEq, Repr

/-- The data committed when a cluster result is accepted (lines 227-233):
the solved position, the optional covariance trace, the variance estimate,
the distinct count and the sorted cluster handed to the solver. -/
structure Commit where
  pos : ℚ × ℚ × ℚ
  cov : Option ℚ
  varEst : ℚ
  distinct : ℕ
  cluster : List Obs
deriving DecidableEq, Repr

/-- Which early-return of _resolve fired after the aircraft state refresh. -/
inductive AbortStage where
  | fewReceivers
  | rateLimit
  | noClusters
  | noAccepted
deriving DecidableEq, Repr

/-- The observable outcome of one _resolve run.  Aborts before the aircraft
lookup carry no state; later aborts carry the refreshed aircraft state
(whose field writes persist); a commit carries the fully updated state. -/
inductive Outcome where
  | tooFewCopies
  | decodeFailed
  | unknownAircraft
  | aborted (s : AbortStage) (ac : Aircraft)
  | committed (ac : Aircraft) (c : Commit)
deriving DecidableEq, Repr

/-- The external collaborators and constants of one _resolve run: blacklist,
receiver attributes, physical constants, the decode of this group's message,
the aircraft registry, the clock normalizer and the solver. -/
structure Env where
  blacklist : List ℕ
  user : ℕ → ℕ
  dist : ℕ → ℕ → ℚ
  rpos : ℕ → ℚ × ℚ × ℚ
  Cair : ℚ
  ftom : ℚ
  mlatDelay : ℚ
  decode : Option Decoded
  aircraft : ℕ → Option Aircraft
  normalize : List (ℕ × List ℚ) → List (List (ℕ × ℚ × List ℚ))
  solve : List Obs → Option ℚ → Option ℚ → ℚ × ℚ × ℚ → Option ((ℚ × ℚ × ℚ) × Option ℚ)

/-- The unconditional state refresh of _resolve (lines 110-121): altitude,
squawk and callsign are overwritten from the decoded message when present,
and the altitude update time is recorded. -/
def refreshAircraft (now : ℚ) (d : Decoded) (ac : Aircraft) : Aircraft :=
  let ac1 := match d.altitude with
    | some a => { ac with altitude := some a, lastAltTime := now }
    | none => ac
  let ac2 := match d.squawk with
    | some s => { ac1 with squawk := some s }
    | none => ac1
  match d.callsign with
  | some c => { ac2 with callsign := some c }
  | none => ac2

/-- The prior-result recall of _resolve (lines 123-133): the sentinel
(no position, var 1e9, distinct 0, elapsed 120) when there is no prior
result or it is older than 120 s, else the stored values and true elapsed
time. -/
def priorContext (now : ℚ) (ac : Aircraft) : Prior :=
  match ac.lastResultPos with
  | none => ⟨none, 1000000000, 0, 120⟩
  | some p =>
    if 120 < now - ac.lastResultTime then ⟨none, 1000000000, 0, 120⟩
    else ⟨some p, ac.lastResultVar, ac.lastResultDistinct, now - ac.lastResultTime⟩

/-- The altitude accuracy model of _resolve (lines 135-147): no altitude
means quorum 4 and no aiding; otherwise the error is
(250 + 70 * seconds_since_observed) ft converted by FTOM, and the quorum is
3 exactly when that error is below 1000. -/
def altitudeContext (now ftom : ℚ) (ac : Aircraft) : AltCtx :=
  match ac.altitude with
  | none => ⟨none, none, 4⟩
  | some altFt =>
    let altErr := (250 + (now - ac.lastAltTime) * 70) * ftom
    ⟨some (altFt * ftom), some altErr, if altErr < 1000 then 3 else 4⟩

/-- Append one timestamp under its receiver key, preserving first-seen key
order, as timestamp_map.setdefault(receiver, []).append(timestamp) does. -/
def insertTM (r : ℕ) (t : ℚ) : List (ℕ × List ℚ) → List (ℕ × List ℚ)
  | [] => [(r, [t])]
  | (r', ts) :: rest =>
    if r' = r then (r', ts ++ [t]) :: rest else (r', ts) :: insertTM r t rest

/-- The receiver -> timestamps map of _resolve (lines 149-153), with
blacklisted receivers silently dropped. -/
def buildTimestampMap (user : ℕ → ℕ) (blacklist : List ℕ) (copies : List (ℕ × ℚ)) :
    List (ℕ × List ℚ) :=
  (copies.filter fun c => !(blacklist.contains (user c.1))).foldl
    (fun m c => insertTM c.1 c.2 m) []

/-- Sorting a cluster by increasing timestamp (line 197). -/
def sortCluster (cluster : List Obs) : List Obs :=
  List.insertionSort (fun a b => a.t ≤ b.t) cluster

/-- The solver position seed (line 199): the prior position when present,
else the first cluster receiver's position. -/
def seedOf (rpos : ℕ → ℚ × ℚ × ℚ) (lastPos : Option (ℚ × ℚ × ℚ)) (sc : List Obs) :
    ℚ × ℚ × ℚ :=
  match lastPos with
  | some p => p
  | none => sc.head?.elim (0, 0, 0) fun h => rpos h.rid

/-- The cluster acceptance loop of _resolve (lines 182-222), taken over the
candidate clusters in the order they are popped (descending distinct count).
A break returns none immediately; a solver failure or an inaccuracy
rejection continues with the remaining clusters. -/
def acceptLoop (env : Env) (alt altErr : Option ℚ) (pr : Prior) :
    List (ℕ × List Obs) → Option Commit
  | [] => none
  | (distinct, cluster) :: rest =>
    if pr.elapsed < 10 ∧ distinct < pr.distinct then none
    else if pr.elapsed < env.mlatDelay - 1/2 ∧ distinct = pr.distinct then none
    else
      let sc := sortCluster cluster
      match env.solve sc alt altErr (seedOf env.rpos pr.pos sc) with
      | none => acceptLoop env alt altErr pr rest
      | some (pos, cov) =>
        let varEst := cov.getD 100000000
        if 100000000 < varEst then acceptLoop env alt altErr pr rest
        else if pr.elapsed < 2 ∧ pr.var * (11/10) < varEst then
          acceptLoop env alt altErr pr rest
        else some ⟨pos, cov, varEst, distinct, sc⟩

/-- Candidate clusters sorted ascending by distinct count and then reversed,
so that popping from the front tries the largest distinct count first
(lines 183-185). -/
def orderClusters (clusters : List (ℕ × List Obs)) : List (ℕ × List Obs) :=
  (List.insertionSort (fun a b => a.1 ≤ b.1) clusters).reverse

/-- The body of _resolve from the state refresh onward, once the message
decoded and the aircraft was found in the registry. -/
def resolveKnown (env : Env) (now : ℚ) (copies : List (ℕ × ℚ)) (d : Decoded)
    (ac0 : Aircraft) : Outcome :=
  let ac := refreshAircraft now d ac0
  let pr := priorContext now ac
  let actx := altitudeContext now env.ftom ac
  let tmap := buildTimestampMap env.user env.blacklist copies
  if tmap.length < actx.minReceivers then .aborted .fewReceivers ac
  else if pr.elapsed < 15 ∧ tmap.length < pr.distinct then .aborted .rateLimit ac
  else if pr.elapsed < 2 ∧ tmap.length = pr.distinct then .aborted .rateLimit ac
  else
    let components := env.normalize tmap
    let clusters := (components.filter fun c => actx.minReceivers ≤ c.length).flatMap
      (clusterTimestamps env.dist env.Cair actx.minReceivers)
    if clusters.isEmpty then .aborted .noClusters ac
    else
      match acceptLoop env actx.alt actx.altErr pr (orderClusters clusters) with
      | none => .aborted .noAccepted ac
      | some c =>
        .committed { ac with lastResultPos := some c.pos, lastResultVar := c.varEst,
                             lastResultDistinct := c.distinct, lastResultTime := now } c

/-- The _resolve pipeline on one message group's recorded copies. -/
def resolve (env : Env) (now : ℚ) (copies : List (ℕ × ℚ)) : Outcome :=
  if copies.length < 3 then .tooFewCopies
  else match env.decode with
  | none => .decodeFailed
  | some d =>
    match env.aircraft d.address with
    | none => .unknownAircraft
    | some ac0 => resolveKnown env now copies d ac0

/-- One firing of the resolution timer: the group is removed from the
correlation table unconditionally (line 96) and _resolve runs on its
recorded copies. -/
def resolveStep (env : Env) (now : ℚ) (pending : List (ℕ × List (ℕ × ℚ))) (msg : ℕ) :
    List (ℕ × List (ℕ × ℚ)) × Outcome :=
  let copies := (pending.lookup msg).getD []
  (pending.filter fun p => p.1 != msg, resolve env now copies)

/-- The pairwise property claimed for accepted clusters: distinct receivers
and a timestamp difference within the propagation-delay feasibility bound. -/
def feasiblePair (dist : ℕ → ℕ → ℚ) (Cair : ℚ) (a b : Obs) : Prop :=
  a.rid ≠ b.rid ∧ |a.t - b.t| ≤ (dist a.rid b.rid * (21/20) + 1000) / Cair

instance (dist : ℕ → ℕ → ℚ) (Cair : ℚ) (a b : Obs) :
    Decidable (feasiblePair dist Cair a b) := by
  unfold feasiblePair; infer_instance

theorem feasiblePair_symm {dist : ℕ → ℕ → ℚ} {Cair : ℚ}
    (hsym : ∀ i j, dist i j = dist j i) {a b : Obs}
    (h : feasiblePair dist Cair a b) : feasiblePair dist Cair b a := by
  obtain ⟨h1, h2⟩ := h
  refine ⟨h1.symm, ?_⟩
  rw [hsym b.rid a.rid, abs_sub_comm]
  exact h2

theorem canCluster_feasible {dist : ℕ → ℕ → ℚ} {Cair : ℚ}
    (hsym : ∀ i j, dist i j = dist j i) {o : Obs} {cluster : List Obs}
    (h : canCluster dist Cair o cluster = true) :
    ∀ m ∈ cluster, feasiblePair dist Cair m o := by
  intro m hm
  have := List.all_eq_true.mp h m hm
  simp only [Bool.and_eq_true, bne_iff_ne, decide_eq_true_eq] at this
  refine ⟨this.1, ?_⟩
  rw [hsym m.rid o.rid]
  exact this.2

theorem scanStep_cluster_pairwise (dist : ℕ → ℕ → ℚ) (Cair : ℚ)
    (hsym : ∀ i j, dist i j = dist j i) (lastT : ℚ) :
    ∀ (gs cluster : List Obs) (distinct : ℕ),
      cluster.Pairwise (feasiblePair dist Cair) →
      (scanStep dist Cair lastT gs cluster distinct).2.1.Pairwise (feasiblePair dist Cair) := by
  intro gs
  induction gs with
  | nil => intro cluster distinct h; simpa [scanStep] using h
  | cons o rest ih =>
    intro cluster distinct h
    simp only [scanStep]
    split
    · exact h
    · split
      · rename_i hcan
        refine ih _ _ ?_
        rw [List.pairwise_append]
        exact ⟨h, List.pairwise_singleton _ _,
          fun a ha b hb => (List.mem_singleton.mp hb) ▸ canCluster_feasible hsym hcan a ha⟩
      · exact ih cluster distinct h

theorem scanStep_distinct_le (dist : ℕ → ℕ → ℚ) (Cair lastT : ℚ) :
    ∀ (gs cluster : List Obs) (distinct : ℕ), distinct ≤ cluster.length →
      (scanStep dist Cair lastT gs cluster distinct).2.2
        ≤ (scanStep dist Cair lastT gs cluster distinct).2.1.length := by
  intro gs
  induction gs with
  | nil => intro cluster distinct h; simpa [scanStep] using h
  | cons o rest ih =>
    intro cluster distinct h
    simp only [scanStep]
    split
    · exact h
    · split
      · refine ih _ _ ?_
        simp only [List.length_append, List.length_singleton]
        split <;> omega
      · exact ih cluster distinct h

theorem processGroupF_cluster_pairwise {dist : ℕ → ℕ → ℚ} {Cair : ℚ} {minR : ℕ}
    (hsym : ∀ i j, dist i j = dist j i) :
    ∀ (fuel : ℕ) (g : List Obs) (dc : ℕ × List Obs),
      dc ∈ processGroupF dist Cair minR fuel g →
      dc.2.Pairwise (feasiblePair dist Cair) := by
  intro fuel
  induction fuel with
  | zero => intro g dc h; simp [processGroupF] at h
  | succ f ih =>
    intro g dc h
    simp only [processGroupF] at h
    split at h
    · split at h
      · simp at h
      · rename_i seed restDesc hrev
        have hscan := scanStep_cluster_pairwise dist Cair hsym seed.t restDesc [seed] 1
          (List.pairwise_singleton _ _)
        split at h
        · rcases List.mem_cons.mp h with h1 | h1
          · subst h1
            exact List.pairwise_reverse.mpr
              (hscan.imp fun hab => feasiblePair_symm hsym hab)
          · exact ih _ _ h1
        · exact ih _ _ h
    · simp at h

theorem processGroupF_distinct_le (dist : ℕ → ℕ → ℚ) (Cair : ℚ) (minR : ℕ) :
    ∀ (fuel : ℕ) (g : List Obs) (dc : ℕ × List Obs),
      dc ∈ processGroupF dist Cair minR fuel g → dc.1 ≤ dc.2.length := by
  intro fuel
  induction fuel with
  | zero => intro g dc h; simp [processGroupF] at h
  | succ f ih =>
    intro g dc h
    simp only [processGroupF] at h
    split at h
    · split at h
      · simp at h
      · rename_i seed restDesc hrev
        have hscan := scanStep_distinct_le dist Cair seed.t restDesc [seed] 1 (by simp)
        split at h
        · rcases List.mem_cons.mp h with h1 | h1
          · subst h1
            simpa using hscan
          · exact ih _ _ h1
        · exact ih _ _ h
    · simp at h

theorem clusterTimestamps_mem {dist : ℕ → ℕ → ℚ} {Cair : ℚ} {minR : ℕ}
    {component : List (ℕ × ℚ × List ℚ)} {dc : ℕ × List Obs}
    (h : dc ∈ clusterTimestamps dist Cair minR component) :
    ∃ g, dc ∈ processGroup dist Cair minR g := by
  simp only [clusterTimestamps, List.mem_flatMap] at h
  obtain ⟨g, _, hg⟩ := h
  exact ⟨g, hg⟩

/-- A symmetric test distance function: 1000 km between any two distinct
receivers. -/
def testDist : ℕ → ℕ → ℚ := fun i j => if i = j then 0 else 1000000

theorem testDist_symm : ∀ i j, testDist i j = testDist j i := by
  intro i j
  simp only [testDist]
  by_cases h : i = j
  · subst h; rfl
  · rw [if_neg h, if_neg fun hh => h hh.symm]

/-- A test component: three mutually distant receivers with timestamps
within 0.2 ms of each other. -/
def testComp : List (ℕ × ℚ × List ℚ) := [(1, (0, [0])), (2, (0, [1/10000])), (3, (0, [1/5000]))]

/-- The single cluster produced by clustering testComp. -/
def testCluster : List Obs := [⟨1, 0, 0⟩, ⟨2, 1/10000, 0⟩, ⟨3, 1/5000, 0⟩]

theorem testComp_clusters :
    clusterTimestamps testDist 1000000 3 testComp = [(3, testCluster)] := by
  norm_num [clusterTimestamps, flattenComponent, testComp, testCluster,
    List.flatMap_cons, List.flatMap_nil, List.insertionSort, List.orderedInsert,
    coarse, processGroup, processGroupF, scanStep, canCluster, isDistinct, testDist,
    abs_le]

/-- C1: for every cluster kept by the clustering algorithm, no two members
come from the same receiver, and every pair of members is within the
propagation-delay feasibility bound (distance * 1.05 + 1000 m) / Cair. -/
theorem C1_cluster_pairwise_feasible (dist : ℕ → ℕ → ℚ) (Cair : ℚ) (minR : ℕ)
    (component : List (ℕ × ℚ × List ℚ)) (hsym : ∀ i j, dist i j = dist j i) :
    ∀ dc ∈ clusterTimestamps dist Cair minR component,
      dc.2.Pairwise (feasiblePair dist Cair) := by
  intro dc h
  obtain ⟨g, hg⟩ := clusterTimestamps_mem h
  exact processGroupF_cluster_pairwise hsym _ _ _ hg

theorem C1_witness : List.Pairwise (feasiblePair testDist 1000000) testCluster :=
  C1_cluster_pairwise_feasible testDist 1000000 3 testComp testDist_symm
    (3, testCluster) (by rw [testComp_clusters]; exact List.mem_singleton.mpr rfl)

/-- C2 counterexample: with a seed at t = 3 ms, a member accepted at
t = 1.5 ms and a candidate at t = 0, the scan stops and leaves the candidate
in the group, even though the candidate is only 1.5 ms earlier than the
most-recently-accepted cluster member and would otherwise be accepted: the
cutoff reference does not advance as candidates are accepted. -/
theorem C2_counterexample :
    scanStep testDist 1000000 (3/1000) [⟨1, 3/2000, 0⟩, ⟨2, 0, 0⟩] [⟨0, 3/1000, 0⟩] 1
      = ([⟨2, 0, 0⟩], [⟨0, 3/1000, 0⟩, ⟨1, 3/2000, 0⟩], 2)
    ∧ (⟨1, 3/2000, 0⟩ : Obs).t - (⟨2, 0, 0⟩ : Obs).t ≤ 2/1000
    ∧ canCluster testDist 1000000 ⟨2, 0, 0⟩ [⟨0, 3/1000, 0⟩, ⟨1, 3/2000, 0⟩] = true := by
  refine ⟨?_, by norm_num, by norm_num [canCluster, testDist, abs_le]⟩
  norm_num [scanStep, canCluster, isDistinct, testDist, abs_le]

/-- C2 (amended): the backward scan stops as soon as a candidate's timestamp
is more than 2 ms earlier than the seed (latest remaining) entry's
timestamp; the cutoff reference stays fixed at the seed's timestamp for the
whole scan and does not advance as candidates are accepted.  Everything from
the first such candidate on stays in the group untouched. -/
theorem C2_amended_scan_cutoff_fixed (dist : ℕ → ℕ → ℚ) (Cair lastT : ℚ) :
    ∀ (pre : List Obs) (o : Obs) (post cluster : List Obs) (distinct : ℕ),
      (∀ x ∈ pre, lastT - x.t ≤ 2/1000) → 2/1000 < lastT - o.t →
      scanStep dist Cair lastT (pre ++ o :: post) cluster distinct
        = ((scanStep dist Cair lastT pre cluster distinct).1 ++ o :: post,
           (scanStep dist Cair lastT pre cluster distinct).2) := by
  intro pre
  induction pre with
  | nil =>
    intro o post cluster distinct hpre ho
    simp [scanStep, ho]
  | cons x pre ih =>
    intro o post cluster distinct hpre ho
    have hx : ¬((2 : ℚ)/1000 < lastT - x.t) :=
      not_lt.mpr (hpre x (List.mem_cons_self x pre))
    simp only [List.cons_append, scanStep, if_neg hx]
    split
    · exact ih o post _ _ (fun y hy => hpre y (List.mem_cons_of_mem x hy)) ho
    · have h := ih o post cluster distinct (fun y hy => hpre y (List.mem_cons_of_mem x hy)) ho
      simp only [List.append_eq] at h ⊢
      rw [h]
      simp

theorem C2_amended_witness :
    scanStep testDist 1000000 (3/1000) [⟨1, 3/2000, 0⟩, ⟨2, 0, 0⟩] [⟨0, 3/1000, 0⟩] 1
      = ((scanStep testDist 1000000 (3/1000) [⟨1, 3/2000, 0⟩] [⟨0, 3/1000, 0⟩] 1).1
           ++ [⟨2, 0, 0⟩],
         (scanStep testDist 1000000 (3/1000) [⟨1, 3/2000, 0⟩] [⟨0, 3/1000, 0⟩] 1).2) :=
  C2_amended_scan_cutoff_fixed testDist 1000000 (3/1000) [⟨1, 3/2000, 0⟩] ⟨2, 0, 0⟩ []
    [⟨0, 3/1000, 0⟩] 1
    (by intro x hx; rcases List.mem_singleton.mp hx with rfl; norm_num)
    (by norm_num)

/-- C8: the distinct-receiver count of a kept cluster never exceeds its
member count, and a candidate accepted while some already-included receiver
lies within 1 km of it does not increment the distinct count. -/
theorem C8_distinct_count_bound :
    (∀ (dist : ℕ → ℕ → ℚ) (Cair : ℚ) (minR : ℕ) (component : List (ℕ × ℚ × List ℚ)),
      ∀ dc ∈ clusterTimestamps dist Cair minR component, dc.1 ≤ dc.2.length)
    ∧ (∀ (dist : ℕ → ℕ → ℚ) (Cair lastT : ℚ) (o : Obs) (rest cluster : List Obs)
        (distinct : ℕ),
      ¬((2 : ℚ)/1000 < lastT - o.t) → canCluster dist Cair o cluster = true →
      (∃ m ∈ cluster, dist o.rid m.rid < 1000) →
      scanStep dist Cair lastT (o :: rest) cluster distinct
        = scanStep dist Cair lastT rest (cluster ++ [o]) distinct) := by
  constructor
  · intro dist Cair minR component dc h
    obtain ⟨g, hg⟩ := clusterTimestamps_mem h
    exact processGroupF_distinct_le _ _ _ _ _ _ hg
  · intro dist Cair lastT o rest cluster distinct hcut hcan hclose
    have hnd : isDistinct dist o cluster = false := by
      obtain ⟨m, hm, hlt⟩ := hclose
      cases hid : isDistinct dist o cluster with
      | false => rfl
      | true =>
        rw [isDistinct] at hid
        have := List.all_eq_true.mp hid m hm
        simp only [decide_eq_true_eq] at this
        exact absurd this (not_le.mpr hlt)
    simp only [scanStep, if_neg hcut, if_pos hcan, hnd, Bool.false_eq_true, if_false]

/-- A test distance function with all receivers 500 m apart. -/
def testDistClose : ℕ → ℕ → ℚ := fun i j => if i = j then 0 else 500

theorem C8_witness :
    ((3, testCluster).1 ≤ (3, testCluster).2.length)
    ∧ scanStep testDistClose 1 (2/1000) [⟨1, 1/1000, 0⟩] [⟨2, 2/1000, 0⟩] 5
      = scanStep testDistClose 1 (2/1000) [] ([⟨2, 2/1000, 0⟩] ++ [⟨1, 1/1000, 0⟩]) 5 :=
  ⟨C8_distinct_count_bound.1 testDist 1000000 3 testComp (3, testCluster)
     (by rw [testComp_clusters]; exact List.mem_singleton.mpr rfl),
   C8_distinct_count_bound.2 testDistClose 1 (2/1000) ⟨1, 1/1000, 0⟩ [] [⟨2, 2/1000, 0⟩] 5
     (by norm_num) (by norm_num [canCluster, testDistClose, abs_le])
     ⟨⟨2, 2/1000, 0⟩, by simp, by norm_num [testDistClose]⟩⟩

/-- C5: the quorum is 4 with no altitude aiding whenever altitude is
unknown; with a known altitude the error is (250 + 70 * elapsed) ft
converted by FTOM, and the quorum relaxes to 3 exactly when that error is
under the 1000 threshold in converted units. -/
theorem C5_altitude_quorum (now ftom : ℚ) (ac : Aircraft) :
    (ac.altitude = none → altitudeContext now ftom ac = ⟨none, none, 4⟩)
    ∧ (∀ a, ac.altitude = some a →
        altitudeContext now ftom ac
          = ⟨some (a * ftom), some ((250 + (now - ac.lastAltTime) * 70) * ftom),
             if (250 + (now - ac.lastAltTime) * 70) * ftom < 1000 then 3 else 4⟩
        ∧ ((altitudeContext now ftom ac).minReceivers = 3
            ↔ (250 + (now - ac.lastAltTime) * 70) * ftom < 1000)
        ∧ ((altitudeContext now ftom ac).minReceivers = 4
            ↔ ¬((250 + (now - ac.lastAltTime) * 70) * ftom < 1000))) := by
  constructor
  · intro h; simp [altitudeContext, h]
  · intro a h
    refine ⟨by simp [altitudeContext, h], ?_, ?_⟩
    · simp only [altitudeContext, h]
      split
      · rename_i hlt; simpa using hlt
      · rename_i hlt; simpa using hlt
    · simp only [altitudeContext, h]
      split
      · rename_i hlt; simpa using hlt
      · rename_i hlt; simpa using hlt

/-- An aircraft with no known altitude and no prior result. -/
def acNoAlt : Aircraft := ⟨none, 0, none, none, none, 0, 0, 0⟩

/-- An aircraft with a known altitude observed at time 0. -/
def acAlt : Aircraft := ⟨some 320, 0, none, none, none, 0, 0, 0⟩

theorem C5_witness :
    altitudeContext 5 1 acNoAlt = ⟨none, none, 4⟩
    ∧ (altitudeContext 5 1 acAlt).minReceivers = 3 :=
  ⟨(C5_altitude_quorum 5 1 acNoAlt).1 rfl,
   (((C5_altitude_quorum 5 1 acAlt).2 320 rfl).2.1).mpr (by norm_num [acAlt])⟩

/-- C6: the prior context is the sentinel (no position, variance 1e9,
distinct 0, elapsed exactly 120) iff there is no prior result or it is
strictly older than 120 s; otherwise the stored values and the true elapsed
time are used. -/
theorem C6_prior_recall (now : ℚ) (ac : Aircraft) :
    ((ac.lastResultPos = none ∨ 120 < now - ac.lastResultTime) →
      priorContext now ac = ⟨none, 1000000000, 0, 120⟩)
    ∧ (∀ p, ac.lastResultPos = some p → ¬(120 < now - ac.lastResultTime) →
      priorContext now ac
        = ⟨some p, ac.lastResultVar, ac.lastResultDistinct, now - ac.lastResultTime⟩) := by
  constructor
  · intro h
    rcases h with h | h
    · simp [priorContext, h]
    · cases hp : ac.lastResultPos with
      | none => simp [priorContext, hp]
      | some p => simp [priorContext, hp, h]
  · intro p hp hnot
    simp [priorContext, hp, hnot]

/-- An aircraft with a prior accepted result at time 0. -/
def acPrior : Aircraft := ⟨none, 0, none, none, some (1, 2, 3), 25, 5, 0⟩

theorem C6_witness :
    priorContext 200 acPrior = ⟨none, 1000000000, 0, 120⟩
    ∧ priorContext 50 acPrior
      = ⟨some (1, 2, 3), acPrior.lastResultVar, acPrior.lastResultDistinct,
         50 - acPrior.lastResultTime⟩ :=
  ⟨(C6_prior_recall 200 acPrior).1 (Or.inr (by norm_num [acPrior])),
   (C6_prior_recall 50 acPrior).2 (1, 2, 3) rfl (by norm_num [acPrior])⟩

/-- A baseline test environment whose oracles all fail or are empty. -/
def envT : Env :=
  { blacklist := []
    user := fun u => u
    dist := testDist
    rpos := fun _ => (0, 0, 0)
    Cair := 1000000
    ftom := 1
    mlatDelay := 15
    decode := none
    aircraft := fun _ => none
    normalize := fun _ => []
    solve := fun _ _ _ _ => none }

/-- C7: a group with fewer than 3 recorded copies is a no-op for any
environment and time (so the decoder is never consulted and no aircraft
state changes): the only effect is the removal of the group from the
correlation table. -/
theorem C7_few_copies_noop (pending : List (ℕ × List (ℕ × ℚ))) (msg : ℕ)
    (h : ((pending.lookup msg).getD []).length < 3) :
    ∀ (env : Env) (now : ℚ), resolveStep env now pending msg
      = (pending.filter fun p => p.1 != msg, .tooFewCopies) := by
  intro env now
  simp only [resolveStep, resolve, if_pos h]

/-- A correlation table holding two pending groups, with message 1 having
only two copies. -/
def pendingT : List (ℕ × List (ℕ × ℚ)) := [(1, [(10, 0), (11, 0)]), (2, [(10, 0)])]

theorem C7_witness :
    resolveStep envT 0 pendingT 1 = (pendingT.filter fun p => p.1 != 1, .tooFewCopies) :=
  C7_few_copies_noop pendingT 1 (by simp [pendingT]) envT 0

/-- C3: candidate clusters are ordered descending by distinct count; a
cluster with a lower distinct count than the prior under 10 s, or an equal
count under mlatDelay - 0.5 s, stops the whole loop with no result; a
solver call returning no estimate merely continues with the next cluster. -/
theorem C3_acceptance_policy :
    (∀ clusters : List (ℕ × List Obs),
      List.Sorted (fun a b => b.1 ≤ a.1) (orderClusters clusters))
    ∧ (∀ (env : Env) (alt altErr : Option ℚ) (pr : Prior) (d : ℕ) (c : List Obs)
        (rest : List (ℕ × List Obs)),
      ((pr.elapsed < 10 ∧ d < pr.distinct)
        ∨ (pr.elapsed < env.mlatDelay - 1/2 ∧ d = pr.distinct)) →
      acceptLoop env alt altErr pr ((d, c) :: rest) = none)
    ∧ (∀ (env : Env) (alt altErr : Option ℚ) (pr : Prior) (d : ℕ) (c : List Obs)
        (rest : List (ℕ × List Obs)),
      ¬(pr.elapsed < 10 ∧ d < pr.distinct) →
      ¬(pr.elapsed < env.mlatDelay - 1/2 ∧ d = pr.distinct) →
      env.solve (sortCluster c) alt altErr (seedOf env.rpos pr.pos (sortCluster c)) = none →
      acceptLoop env alt altErr pr ((d, c) :: rest) = acceptLoop env alt altErr pr rest) := by
  refine ⟨?_, ?_, ?_⟩
  · intro clusters
    haveI t1 : IsTotal (ℕ × List Obs) (fun a b => a.1 ≤ b.1) :=
      ⟨fun a b => Nat.le_total a.1 b.1⟩
    haveI t2 : IsTrans (ℕ × List Obs) (fun a b => a.1 ≤ b.1) :=
      ⟨fun a b c h1 h2 => le_trans h1 h2⟩
    have hs : List.Sorted (fun a b : ℕ × List Obs => a.1 ≤ b.1)
        (List.insertionSort (fun a b => a.1 ≤ b.1) clusters) :=
      List.sorted_insertionSort _ _
    exact List.pairwise_reverse.mpr hs
  · intro env alt altErr pr d c rest h
    by_cases h1 : pr.elapsed < 10 ∧ d < pr.distinct
    · simp [acceptLoop, h1]
    · have h2 : pr.elapsed < env.mlatDelay - 1/2 ∧ d = pr.distinct := h.resolve_left h1
      simp only [acceptLoop, if_neg h1, if_pos h2]
  · intro env alt altErr pr d c rest h1 h2 hs
    simp only [acceptLoop, if_neg h1, if_neg h2, hs]

/-- The sentinel prior context (no prior result). -/
def prT : Prior := ⟨none, 1000000000, 0, 120⟩

/-- A recent prior context with distinct count 5. -/
def prLow : Prior := ⟨none, 25, 5, 5⟩

theorem C3_witness :
    List.Sorted (fun a b => b.1 ≤ a.1)
      (orderClusters [(1, ([] : List Obs)), (3, []), (2, [])])
    ∧ acceptLoop envT none none prLow [(2, [])] = none
    ∧ acceptLoop envT none none prT [(4, [])] = acceptLoop envT none none prT [] :=
  ⟨C3_acceptance_policy.1 [(1, []), (3, []), (2, [])],
   C3_acceptance_policy.2.1 envT none none prLow 2 [] []
     (Or.inl ⟨by norm_num [prLow], by norm_num [prLow]⟩),
   C3_acceptance_policy.2.2 envT none none prT 4 [] []
     (by norm_num [prT]) (by norm_num [prT, envT]) rfl⟩

/-- C10: when the solver returns a position with no covariance, the variance
estimate is exactly the 100e6 sentinel; the inaccuracy check (strictly
greater than 100e6) never rejects it, so only the elapsed-under-2s
comparison against the prior variance decides between acceptance and
continuing. -/
theorem C10_no_covariance_sentinel (env : Env) (alt altErr : Option ℚ) (pr : Prior)
    (d : ℕ) (c : List Obs) (rest : List (ℕ × List Obs)) (pos : ℚ × ℚ × ℚ)
    (h1 : ¬(pr.elapsed < 10 ∧ d < pr.distinct))
    (h2 : ¬(pr.elapsed < env.mlatDelay - 1/2 ∧ d = pr.distinct))
    (hs : env.solve (sortCluster c) alt altErr (seedOf env.rpos pr.pos (sortCluster c))
      = some (pos, none)) :
    acceptLoop env alt altErr pr ((d, c) :: rest)
      = if pr.elapsed < 2 ∧ pr.var * (11/10) < 100000000 then
          acceptLoop env alt altErr pr rest
        else some ⟨pos, none, 100000000, d, sortCluster c⟩ := by
  simp only [acceptLoop, if_neg h1, if_neg h2, hs, Option.getD_none, lt_self_iff_false,
    if_false]

/-- A test environment whose solver always returns a position with no
covariance. -/
def envSolve : Env := { envT with solve := fun _ _ _ _ => some ((1, 2, 3), none) }

theorem C10_witness :
    acceptLoop envSolve none none prT [(4, testCluster)]
      = some ⟨(1, 2, 3), none, 100000000, 4, sortCluster testCluster⟩ :=
  (C10_no_covariance_sentinel envSolve none none prT 4 testCluster [] (1, 2, 3)
    (by norm_num [prT]) (by norm_num [prT, envSolve, envT]) rfl).trans
    (if_neg (by norm_num [prT]))

theorem resolve_eq_resolveKnown (env : Env) (now : ℚ) (copies : List (ℕ × ℚ))
    (d : Decoded) (ac : Aircraft)
    (hd : env.decode = some d) (ha : env.aircraft d.address = some ac)
    (hlen : ¬copies.length < 3) :
    resolve env now copies = resolveKnown env now copies d ac := by
  simp only [resolve, if_neg hlen, hd, ha]

/-- C4: after blacklist filtering and the minimum-receiver check, resolution
aborts at the rate-limit step iff elapsed < 15 s with fewer distinct
receivers than the prior result, or elapsed < 2 s with exactly as many; a
candidate with more receivers than the prior is never rate-limited; and a
rate-limited abort is independent of the normalizer and solver (no
clustering is performed). -/
theorem C4_rate_limit (env : Env) (now : ℚ) (copies : List (ℕ × ℚ)) (d : Decoded)
    (ac ac1 : Aircraft) (pr : Prior) (n : ℕ)
    (hd : env.decode = some d) (ha : env.aircraft d.address = some ac)
    (hac1 : ac1 = refreshAircraft now d ac)
    (hpr : pr = priorContext now ac1)
    (hn : n = (buildTimestampMap env.user env.blacklist copies).length)
    (hlen : ¬copies.length < 3)
    (hmin : ¬n < (altitudeContext now env.ftom ac1).minReceivers) :
    (resolve env now copies = .aborted .rateLimit ac1
      ↔ (pr.elapsed < 15 ∧ n < pr.distinct) ∨ (pr.elapsed < 2 ∧ n = pr.distinct))
    ∧ (pr.distinct < n → ∀ ac2, resolve env now copies ≠ .aborted .rateLimit ac2)
    ∧ ((pr.elapsed < 15 ∧ n < pr.distinct) ∨ (pr.elapsed < 2 ∧ n = pr.distinct) →
      ∀ (n2 : List (ℕ × List ℚ) → List (List (ℕ × ℚ × List ℚ)))
        (s2 : List Obs → Option ℚ → Option ℚ → ℚ × ℚ × ℚ → Option ((ℚ × ℚ × ℚ) × Option ℚ)),
      resolve { env with normalize := n2, solve := s2 } now copies
        = .aborted .rateLimit ac1) := by
  subst hac1 hpr hn
  have hkey := resolve_eq_resolveKnown env now copies d ac hd ha hlen
  refine ⟨?_, ?_, ?_⟩
  · rw [hkey]
    simp only [resolveKnown, if_neg hmin]
    by_cases hc1 : (priorContext now (refreshAircraft now d ac)).elapsed < 15
        ∧ (buildTimestampMap env.user env.blacklist copies).length
          < (priorContext now (refreshAircraft now d ac)).distinct
    · simp [hc1]
    · by_cases hc2 : (priorContext now (refreshAircraft now d ac)).elapsed < 2
          ∧ (buildTimestampMap env.user env.blacklist copies).length
            = (priorContext now (refreshAircraft now d ac)).distinct
      · simp [hc1, hc2]
      · simp only [if_neg hc1, if_neg hc2]
        constructor
        · intro h
          exfalso
          split at h
          · simp at h
          · split at h <;> simp at h
        · intro h
          exact absurd h (by simp [hc1, hc2])
  · intro hgt ac2
    rw [hkey]
    have hc1 : ¬((priorContext now (refreshAircraft now d ac)).elapsed < 15
        ∧ (buildTimestampMap env.user env.blacklist copies).length
          < (priorContext now (refreshAircraft now d ac)).distinct) := by
      rintro ⟨-, h⟩; omega
    have hc2 : ¬((priorContext now (refreshAircraft now d ac)).elapsed < 2
        ∧ (buildTimestampMap env.user env.blacklist copies).length
          = (priorContext now (refreshAircraft now d ac)).distinct) := by
      rintro ⟨-, h⟩; omega
    simp only [resolveKnown, if_neg hmin, if_neg hc1, if_neg hc2]
    intro h
    split at h
    · simp at h
    · split at h <;> simp at h
  · intro hcond n2 s2
    have hkey2 := resolve_eq_resolveKnown { env with normalize := n2, solve := s2 }
      now copies d ac hd ha hlen
    rw [hkey2]
    rcases hcond with hc1 | hc2
    · simp only [resolveKnown, if_neg hmin, if_pos hc1]
    · by_cases hc1 : (priorContext now (refreshAircraft now d ac)).elapsed < 15
          ∧ (buildTimestampMap env.user env.blacklist copies).length
            < (priorContext now (refreshAircraft now d ac)).distinct
      · simp only [resolveKnown, if_neg hmin, if_pos hc1]
      · simp only [resolveKnown, if_neg hmin, if_neg hc1, if_pos hc2]

/-- A decoded message carrying no altitude, squawk or callsign. -/
def dRL : Decoded := ⟨7, none, none, none⟩

/-- An aircraft with known altitude and a prior result at distinct count 5,
accepted at time 0. -/
def acRL : Aircraft := ⟨some 320, 0, none, none, some (1, 2, 3), 25, 5, 0⟩

/-- An environment that decodes to dRL and knows aircraft 7 as acRL. -/
def envC4 : Env :=
  { envT with decode := some dRL, aircraft := fun a => if a = 7 then some acRL else none }

/-- Four copies from four distinct receivers. -/
def copies4 : List (ℕ × ℚ) := [(10, 0), (11, 0), (12, 0), (13, 0)]

theorem C4_witness :
    resolve envC4 5 copies4 = .aborted .rateLimit (refreshAircraft 5 dRL acRL) :=
  (C4_rate_limit envC4 5 copies4 dRL acRL (refreshAircraft 5 dRL acRL)
    (priorContext 5 (refreshAircraft 5 dRL acRL))
    (buildTimestampMap envC4.user envC4.blacklist copies4).length
    rfl rfl rfl rfl rfl (by norm_num [copies4])
    (by norm_num [envC4, envT, altitudeContext, refreshAircraft, dRL, acRL,
      buildTimestampMap, insertTM, copies4, List.filter])).1.mpr
    (Or.inl ⟨by norm_num [priorContext, refreshAircraft, dRL, acRL],
      by norm_num [priorContext, refreshAircraft, dRL, acRL, envC4, envT,
        buildTimestampMap, insertTM, copies4, List.filter]⟩)

/-- C9: once decoding succeeds and the aircraft is known, altitude, squawk
and callsign (and the altitude update time) are overwritten from the decoded
message whenever it carries them; these writes persist in every abort
outcome and through the commit, and the refresh changes no other aircraft
fields. -/
theorem C9_state_refresh (env : Env) (now : ℚ) (copies : List (ℕ × ℚ)) (d : Decoded)
    (ac ac1 : Aircraft)
    (hd : env.decode = some d) (ha : env.aircraft d.address = some ac)
    (hac1 : ac1 = refreshAircraft now d ac) :
    (∀ s ac2, resolve env now copies = .aborted s ac2 → ac2 = ac1)
    ∧ (∀ ac2 c, resolve env now copies = .committed ac2 c →
        ac2.altitude = ac1.altitude ∧ ac2.lastAltTime = ac1.lastAltTime
        ∧ ac2.squawk = ac1.squawk ∧ ac2.callsign = ac1.callsign)
    ∧ (∀ a, d.altitude = some a → ac1.altitude = some a ∧ ac1.lastAltTime = now)
    ∧ (d.altitude = none → ac1.altitude = ac.altitude ∧ ac1.lastAltTime = ac.lastAltTime)
    ∧ (∀ sq, d.squawk = some sq → ac1.squawk = some sq)
    ∧ (d.squawk = none → ac1.squawk = ac.squawk)
    ∧ (∀ cs, d.callsign = some cs → ac1.callsign = some cs)
    ∧ (d.callsign = none → ac1.callsign = ac.callsign)
    ∧ ac1.lastResultPos = ac.lastResultPos ∧ ac1.lastResultVar = ac.lastResultVar
    ∧ ac1.lastResultDistinct = ac.lastResultDistinct
    ∧ ac1.lastResultTime = ac.lastResultTime := by
  subst hac1
  by_cases hlen : copies.length < 3
  · have hfew : resolve env now copies = .tooFewCopies := by
      simp [resolve, if_pos hlen]
    refine ⟨?_, ?_, ?_, ?_, ?_, ?_, ?_, ?_, ?_, ?_, ?_, ?_⟩
    · intro s ac2 h; rw [hfew] at h; exact absurd h (by simp)
    · intro ac2 c h; rw [hfew] at h; exact absurd h (by simp)
    all_goals
      simp only [refreshAircraft]
      cases d.altitude <;> cases d.squawk <;> cases d.callsign <;> simp_all
  · have hkey := resolve_eq_resolveKnown env now copies d ac hd ha hlen
    refine ⟨?_, ?_, ?_, ?_, ?_, ?_, ?_, ?_, ?_, ?_, ?_, ?_⟩
    · intro s ac2 h
      rw [hkey] at h
      simp only [resolveKnown] at h
      split at h
      · simp only [Outcome.aborted.injEq] at h; exact h.2.symm
      · split at h
        · simp only [Outcome.aborted.injEq] at h; exact h.2.symm
        · split at h
          · simp only [Outcome.aborted.injEq] at h; exact h.2.symm
          · split at h
            · simp only [Outcome.aborted.injEq] at h; exact h.2.symm
            · split at h
              · simp only [Outcome.aborted.injEq] at h; exact h.2.symm
              · simp at h
    · intro ac2 c h
      rw [hkey] at h
      simp only [resolveKnown] at h
      split at h
      · simp at h
      · split at h
        · simp at h
        · split at h
          · simp at h
          · split at h
            · simp at h
            · split at h
              · simp at h
              · simp only [Outcome.committed.injEq] at h
                rw [← h.1]
                simp
    all_goals
      simp only [refreshAircraft]
      cases d.altitude <;> cases d.squawk <;> cases d.callsign <;> simp_all

/-- A decoded message from aircraft 7 carrying altitude, squawk and
callsign. -/
def dT : Decoded := ⟨7, some 320, some 1200, some "AB"⟩

/-- An environment that decodes to dT and knows aircraft 7 as acNoAlt. -/
def envC9 : Env :=
  { envT with decode := some dT, aircraft := fun a => if a = 7 then some acNoAlt else none }

/-- Three copies from three distinct receivers. -/
def copies3 : List (ℕ × ℚ) := [(10, 0), (11, 0), (12, 0)]

theorem C9_witness :
    (refreshAircraft 5 dT acNoAlt).altitude = some 320
    ∧ (refreshAircraft 5 dT acNoAlt).lastAltTime = 5
    ∧ (refreshAircraft 5 dT acNoAlt).lastResultPos = acNoAlt.lastResultPos :=
  have h := C9_state_refresh envC9 5 copies3 dT acNoAlt (refreshAircraft 5 dT acNoAlt)
    rfl rfl rfl
  ⟨(h.2.2.1 320 rfl).1, (h.2.2.1 320 rfl).2, h.2.2.2.2.2.2.2.2.1⟩

end Mlat
